import Mathlib

set_option linter.unusedVariables false

/-!  Shallow embedding of `autopkg/autopkg_tools.py` (serverless-munki).

External collaborators (git, autopkg, the GitHub CLI, Slack) are modelled by
an environment of per-call results supplied as parameters; every embedded
function additionally returns the ordered list of external effects it
attempted.  Python exceptions that a function does not catch are modelled by
an `Except` result; Python dictionaries whose keys may be absent are modelled
by structures with `Option` fields (`none` = key absent, whose subscript
lookup raises `KeyError`).  `stderr` of a failed command is modelled as a
`String`.  -/

/-- A row of `summary_results / munki_importer_summary_result / data_rows`
of the report plist, also the element type of the `imported` list of
`handle_recipes`.  The Python code later adds a `branchname` key to the row
dict; here that field starts out `none`.  -/
structure ImportedItem where
  name : Option String
  version : Option String
  branchname : Option String
deriving DecidableEq, Inhabited

/-- An entry of the report's top-level `failures` list (keys `recipe` and
`message` are the ones the code reads; modelled as always present). -/
structure FailureRecord where
  recipe : String
  message : String
deriving DecidableEq, Inhabited

/-- Return value of `git_push`: on failure the dict
`{'success': False, 'error': e, 'branch': branch}`, on success
`{'success': True}` with no other keys. -/
structure PushOutcome where
  success : Bool
  error : Option String
  branch : Option String
deriving DecidableEq, Inhabited

/-- Return value of `parse_report_plist`. -/
structure RunOutcome where
  imported : List ImportedItem
  failed : List FailureRecord
deriving DecidableEq, Inhabited

/-- The three aggregate lists accumulated by `handle_recipes`. -/
structure AggState where
  imported : List ImportedItem
  failed : List FailureRecord
  git_errors : List PushOutcome
deriving DecidableEq, Inhabited

/-- One Slack "block": either a divider or a section whose text object has a
`type` (`plain_text` or `mrkdwn`) and a `text`. -/
inductive Block where
  | divider
  | sec (btype : String) (text : String)
deriving DecidableEq, Inhabited

/-- A Slack attachment: a `color` and a list of blocks. -/
structure Attachment where
  color : String
  blocks : List Block
deriving DecidableEq, Inhabited

/-- The payload built by `format_slack_message`: a top-level `blocks` list
(left empty by the code) and an `attachments` list. -/
structure SlackMessage where
  blocks : List Block
  attachments : List Attachment
deriving DecidableEq, Inhabited

/-- The header block of the always-present first attachment. -/
def packageHeader : Block := Block.sec "mrkdwn" ":package: *AutoPkg has finished running*"

/-- The block used when the imported list is empty. -/
def nothingNotice : Block :=
  Block.sec "mrkdwn" "There are no new items to be imported into Munki"

/-- The header block prepended by `imported_message`. -/
def importedHeader : Block :=
  Block.sec "plain_text" "The following items will be imported into munki after approval"

/-- The header block of the failures attachment. -/
def warningHeader : Block := Block.sec "mrkdwn" ":warning: *The following recipes failed*"

/-- The header block of the git-errors attachment. -/
def githubHeader : Block := Block.sec "mrkdwn" ":github: *Git errors*"

/-- The per-item loop body of `imported_message`: for each item it looks up
`item["version"]` then `item["branchname"]` (a `KeyError`, carrying the key
name, if absent) and renders one mrkdwn line. -/
def imported_lines : List ImportedItem → Except String (List Block)
  | [] => .ok []
  | item :: rest =>
    match item.version with
    | none => .error "version"
    | some ver =>
      match item.branchname with
      | none => .error "branchname"
      | some nm =>
        match imported_lines rest with
        | .error e => .error e
        | .ok ls => .ok (Block.sec "mrkdwn" ("• " ++ nm ++ " version " ++ ver) :: ls)

/-- `imported_message`: the fixed header followed by one line per item. -/
def imported_message (imported : List ImportedItem) : Except String (List Block) :=
  match imported_lines imported with
  | .error e => .error e
  | .ok ls => .ok (importedHeader :: ls)

/-- The per-item loop body of `failures_message`: two sections per failed
record, from `item["recipe"]` and `item["message"]`. -/
def failureLines : List FailureRecord → List Block
  | [] => []
  | item :: rest =>
    Block.sec "mrkdwn" item.recipe
      :: Block.sec "mrkdwn" ("```" ++ item.message ++ "```")
      :: failureLines rest

/-- `failures_message`: one attachment holding a divider, the warning header
and the per-item blocks. -/
def failures_message (failed : List FailureRecord) : List Attachment :=
  [⟨"#f2c744", [Block.divider, warningHeader] ++ failureLines failed⟩]

/-- The per-item loop body of `git_errors_message`: looks up `item['branch']`
then `item['error']` (a `KeyError` if absent) and renders one line. -/
def git_error_lines : List PushOutcome → Except String (List Block)
  | [] => .ok []
  | item :: rest =>
    match item.branch with
    | none => .error "branch"
    | some nm =>
      match item.error with
      | none => .error "error"
      | some info =>
        match git_error_lines rest with
        | .error e => .error e
        | .ok ls =>
          .ok (Block.sec "mrkdwn"
                ("error pushing branch: " ++ nm ++ " ```" ++ info ++ "```") :: ls)

/-- `git_errors_message`: one attachment holding a divider, the git-errors
header and the per-item blocks. -/
def git_errors_message (git_info : List PushOutcome) : Except String (List Attachment) :=
  match git_error_lines git_info with
  | .error e => .error e
  | .ok ls => .ok [⟨"#f2c744", [Block.divider, githubHeader] ++ ls⟩]

/-- `format_slack_message(imported, failed, git_info)`.  Python evaluates the
imported branch first (`if not imported`), unconditionally appends the
failures attachment only when `failed` is truthy, and calls
`git_errors_message` only when `git_info` is truthy. -/
def format_slack_message (imported : List ImportedItem) (failed : List FailureRecord)
    (git_info : List PushOutcome) : Except String SlackMessage :=
  match (if imported.isEmpty then Except.ok [nothingNotice] else imported_message imported) with
  | .error e => .error e
  | .ok mainBlocks =>
    let atts1 := [Attachment.mk "#4bb543" (packageHeader :: mainBlocks)]
    let atts2 := if failed.isEmpty then atts1 else atts1 ++ failures_message failed
    match (if git_info.isEmpty then Except.ok [] else git_errors_message git_info) with
    | .error e => .error e
    | .ok gitAtts => .ok ⟨[], atts2 ++ gitAtts⟩

/-- External effects attempted by the script, in order. -/
inductive Effect where
  | log (msg : String)
  | checkout (branch : String)
  | checkoutNew (branch : String)
  | runAutopkg (recipe : String)
  | gitAdd
  | gitCommit (message : String)
  | gitBranchMove (old new : String)
  | gitPush (branch : String)
  | openPullRequest (branch : String)
  | postSlack (msg : SlackMessage)
deriving DecidableEq

/-- Whether an effect mutates version-control state (branch switch/creation,
staging, commit, branch rename, push). -/
def Effect.isVCMutation : Effect → Bool
  | .checkout _ => true
  | .checkoutNew _ => true
  | .gitAdd => true
  | .gitCommit _ => true
  | .gitBranchMove _ _ => true
  | .gitPush _ => true
  | _ => false

/-- Whether an effect opens a pull request. -/
def Effect.isPR : Effect → Bool
  | .openPullRequest _ => true
  | _ => false

/-- Whether an effect posts the Slack notification. -/
def Effect.isPost : Effect → Bool
  | .postSlack _ => true
  | _ => false

/-- Uncaught Python exceptions of the script. -/
inductive PyErr where
  | gitError (msg : String)
  | branchError (msg : String)
  | keyError (key : String)
  | ioError (msg : String)
deriving DecidableEq

/-- The separator `'.munki'` of `identifier.split('.munki')`, as characters. -/
def munkiSep : List Char := ".munki".toList

/-- `s.split(sep)[0]`: the characters before the first occurrence of `sep`
(the whole string when `sep` does not occur).  -/
def splitHead (sep : List Char) : List Char → List Char
  | [] => []
  | c :: rest => if sep.isPrefixOf (c :: rest) then [] else c :: splitHead sep rest

/-- `identifier.replace(' ', '-').lower()`: hyphenate spaces, then
lower-case each character (ASCII case mapping, as in the recipes' names). -/
def pyLowerHyphen (identifier : String) : String :=
  String.mk ((identifier.toList.map (fun c => if c = ' ' then '-' else c)).map Char.toLower)

/-- `parse_recipe_name(identifier)`: hyphenate/lower-case, truncate at the
first `'.munki'`, and append `'-2'` when the result is already in the live
branch listing (`branch_list()`, supplied here as `current_branches`). -/
def parse_recipe_name (identifier : String) (current_branches : List String) : String :=
  let branch := String.mk (splitHead munkiSep (pyLowerHyphen identifier).toList)
  if branch ∈ current_branches then branch ++ "-2" else branch

/-- The value of `summary_results['munki_importer_summary_result']` as stored
in the report: its `data_rows` key may be absent (`.get('data_rows', [])`). -/
structure MunkiSummaryResult where
  data_rows : Option (List ImportedItem)
deriving DecidableEq, Inhabited

/-- The loaded report plist.  The two top-level keys may each be absent
(`none`); Python subscripting then raises `KeyError`.  `summary_results` is
a dict, modelled as an association list (truthy iff non-empty). -/
structure Report where
  summary_results : Option (List (String × MunkiSummaryResult))
  failures : Option (List FailureRecord)
deriving DecidableEq, Inhabited

/-- `dict.get(key, default)` on the summary-results dict (without default). -/
def dictGetMunki : List (String × MunkiSummaryResult) → String → Option MunkiSummaryResult
  | [], _ => none
  | (k, v) :: rest, key => if k = key then some v else dictGetMunki rest key

/-- `parse_report_plist(report_plist_path)`.  `load` is the result of
`open` + `plistlib.load` (its failure propagates).  The body subscripts
`report_data['summary_results']` and `report_data['failures']` directly, so
an absent top-level key raises `KeyError`; the inner keys use `.get` with
defaults.  A truthy (non-empty) `summary_results` contributes its munki
data rows; a truthy `failures` list contributes each of its entries. -/
def parse_report_plist (load : Except String Report) : Except PyErr RunOutcome :=
  match load with
  | .error msg => .error (.ioError msg)
  | .ok report_data =>
    match report_data.summary_results with
    | none => .error (.keyError "summary_results")
    | some sr =>
      let imported_items :=
        if sr.isEmpty then []
        else ((dictGetMunki sr "munki_importer_summary_result").getD ⟨none⟩).data_rows.getD []
      match report_data.failures with
      | none => .error (.keyError "failures")
      | some fl => .ok ⟨imported_items, fl⟩

/-- Results of the external calls made while processing one recipe.  The
branch listings are the live `branch_list()` snapshots at the two points the
code queries them; `current_branch` is the `symbolic-ref` result. -/
structure RecipeEnv where
  branches_at_name : List String
  current_branch : String
  checkout_master : Except String Unit
  checkout_new : Except String Unit
  report_load : Except String Report
  git_add : Except String Unit
  git_commit : Except String Unit
  branches_at_rename : List String
  git_rename : Except String Unit
  git_push_res : Except String Unit
deriving Inhabited

/-- `change_feature_branch(branch, new)`: runs `git checkout [-b] branch`;
a `GitError` of `git_run` is re-raised as `BranchError` with the branch
name in the message. -/
def change_feature_branch (gitRes : Except String Unit) (branch : String) (new : Bool) :
    List Effect × Except PyErr Unit :=
  let t := [if new then Effect.checkoutNew branch else Effect.checkout branch]
  match gitRes with
  | .ok _ => (t, .ok ())
  | .error stderr =>
      (t, .error (.branchError ("Couldn't switch to '" ++ branch ++ "': Git error: " ++ stderr)))

/-- `create_feature_branch(branch)`: switch to `master` first when not
already there, then `checkout -b branch`. -/
def create_feature_branch (env : RecipeEnv) (branch : String) :
    List Effect × Except PyErr Unit :=
  if env.current_branch ≠ "master" then
    match change_feature_branch env.checkout_master "master" false with
    | (t0, .error e) => (t0, .error e)
    | (t0, .ok _) =>
      match change_feature_branch env.checkout_new branch true with
      | (t1, r) => (t0 ++ t1, r)
  else
    change_feature_branch env.checkout_new branch true

/-- `rename_branch_version(branch, version)`: the new name is
`branch + '-' + version`, with `'-2'` appended (and the collision printed)
when that name is already in the live branch listing; then
`git branch -m branch new_name` is run (its `GitError` propagates) and the
new name is returned. -/
def rename_branch_version (branches : List String) (gitRes : Except String Unit)
    (branch version : String) : List Effect × Except PyErr String :=
  let base := branch ++ "-" ++ version
  let collision := base ∈ branches
  let new_branch_name := if collision then base ++ "-2" else base
  let t := (if collision then [Effect.log ("Branch " ++ base ++ " already exists")] else [])
             ++ [Effect.gitBranchMove branch new_branch_name]
  match gitRes with
  | .ok _ => (t, .ok new_branch_name)
  | .error stderr => (t, .error (.gitError ("Git error: " ++ stderr)))

/-- `git_push(branch)`: runs `git push --set-upstream origin branch`,
catching `GitError` (`try/except`, here the `match` on the command result)
and returning a `PushOutcome` dict in both cases — it never raises. -/
def git_push (gitRes : Except String Unit) (branch : String) :
    List Effect × PushOutcome :=
  let t := [Effect.log "Running `git push`...", Effect.gitPush branch]
  match gitRes with
  | .error stderr =>
      (t ++ [Effect.log ("Failed to push branch " ++ branch)],
       { success := false, error := some ("Git error: " ++ stderr), branch := some branch })
  | .ok _ => (t, { success := true, error := none, branch := none })

/-- `pull_request(branchname)`: soft-skip (log only) when `GITHUB_TOKEN` is
falsy, otherwise run `gh pr create -B main -H branchname -f`. -/
def pull_request (github_token : String) (branchname : String) : List Effect :=
  if github_token = "" then [Effect.log "Pull request not created.. GITHUB_TOKEN not set"]
  else [Effect.log "Creating Pull Request...", Effect.openPullRequest branchname]

/-- `create_commit(imported_item)`: `git add REPO_DIR`, then a commit whose
message reads `item['name']` and `item['version']` (a `KeyError` if absent);
`GitError` of either git command propagates. -/
def create_commit (addRes commitRes : Except String Unit) (imported_item : ImportedItem) :
    List Effect × Except PyErr Unit :=
  let t0 := [Effect.log "Adding items...", Effect.gitAdd]
  match addRes with
  | .error stderr => (t0, .error (.gitError ("Git error: " ++ stderr)))
  | .ok _ =>
    let t1 := t0 ++ [Effect.log "Creating commit..."]
    match imported_item.name with
    | none => (t1, .error (.keyError "name"))
    | some nm =>
      match imported_item.version with
      | none => (t1, .error (.keyError "version"))
      | some ver =>
        let t2 := t1 ++ [Effect.gitCommit ("Update " ++ nm ++ " to version " ++ ver)]
        match commitRes with
        | .error stderr => (t2, .error (.gitError ("Git error: " ++ stderr)))
        | .ok _ => (t2, .ok ())

/-- The body of the `for recipe in recipes` loop of `handle_recipes`,
processing one recipe against the aggregate state.  No step is wrapped in a
`try/except`, so any raised error aborts with `.error`.  (Python tests
`if not push_result['success']` first; the two branches are swapped here.) -/
def process_recipe (github_token : String) (recipe : String) (env : RecipeEnv)
    (st : AggState) : List Effect × Except PyErr AggState :=
  let branchname := parse_recipe_name recipe env.branches_at_name
  match create_feature_branch env branchname with
  | (t0, .error e) => (t0, .error e)
  | (t0, .ok _) =>
    let t1 := t0 ++ [Effect.runAutopkg recipe]
    match parse_report_plist env.report_load with
    | .error e => (t1, .error e)
    | .ok run_results =>
      if run_results.imported = [] ∧ run_results.failed = [] then
        (t1, .ok st)
      else
        let st1 :=
          if run_results.failed = [] then st
          else { st with failed := st.failed ++ [run_results.failed.headI] }
        match run_results.imported with
        | [] => (t1, .ok st1)
        | item :: _ =>
          match create_commit env.git_add env.git_commit item with
          | (tc, .error e) => (t1 ++ tc, .error e)
          | (tc, .ok _) =>
            let t2 := t1 ++ tc
            match item.version with
            | none => (t2, .error (.keyError "version"))
            | some ver =>
              match rename_branch_version env.branches_at_rename env.git_rename branchname ver with
              | (tr, .error e) => (t2 ++ tr, .error e)
              | (tr, .ok branch_version) =>
                let t3 := t2 ++ tr
                match git_push env.git_push_res branch_version with
                | (tp, push_result) =>
                  let t4 := t3 ++ tp
                  if push_result.success then
                    (t4 ++ pull_request github_token branch_version,
                     .ok { st1 with imported :=
                             st1.imported ++ [{ item with branchname := some branchname }] })
                  else
                    (t4, .ok { st1 with git_errors := st1.git_errors ++ [push_result] })

/-- The `for recipe in recipes` loop: recipes in order, each with its
environment of external results; an uncaught error stops the loop. -/
def handle_recipes_loop (github_token : String) :
    List (String × RecipeEnv) → AggState → List Effect × Except PyErr AggState
  | [], st => ([], .ok st)
  | (recipe, env) :: rest, st =>
    match process_recipe github_token recipe env st with
    | (t, .error e) => (t, .error e)
    | (t, .ok st1) =>
      match handle_recipes_loop github_token rest st1 with
      | (t2, r2) => (t ++ t2, r2)

/-- `handle_recipes()`: run the loop from empty aggregates, then — unless
`WEBHOOK_URL` is falsy — compose and post the Slack notification.  (The
choice between `INPUT_RECIPES` and `get_recipes()` only selects the batch
list, which is taken as the `batch` argument.) -/
def handle_recipes (github_token webhook_url : String)
    (batch : List (String × RecipeEnv)) : List Effect × Except PyErr Unit :=
  match handle_recipes_loop github_token batch ⟨[], [], []⟩ with
  | (t, .error e) => (t, .error e)
  | (t, .ok st) =>
    if webhook_url = "" then
      (t ++ [Effect.log "Slack Webhook not set.. No notification sent."], .ok ())
    else
      match format_slack_message st.imported st.failed st.git_errors with
      | .error k => (t, .error (.keyError k))
      | .ok msg => (t ++ [Effect.postSlack msg], .ok ())

/-- The block at index 1 of the first attachment (right after the package
header): the nothing-to-import notice or the imported-items header. -/
def mainSecondBlock (m : SlackMessage) : Option Block :=
  match m.attachments with
  | [] => none
  | a :: _ => a.blocks[1]?

/-- Whether some attachment is the failures section (its second block is the
warning header). -/
def hasFailuresSection (m : SlackMessage) : Bool :=
  m.attachments.any fun a => decide (a.blocks[1]? = some warningHeader)

/-- Whether some attachment is the git-errors section (its second block is
the git-errors header). -/
def hasGitErrorsSection (m : SlackMessage) : Bool :=
  m.attachments.any fun a => decide (a.blocks[1]? = some githubHeader)

/-- A fully successful environment whose report has both top-level keys
present and empty: a no-op recipe run. -/
def envRunNoop : RecipeEnv :=
  { branches_at_name := [], current_branch := "master",
    checkout_master := .ok (), checkout_new := .ok (),
    report_load := .ok ⟨some [], some []⟩,
    git_add := .ok (), git_commit := .ok (),
    branches_at_rename := [], git_rename := .ok (), git_push_res := .ok () }

/-- A report data row: name Foo, version 1.0 (no `branchname` key yet). -/
def rowFoo : ImportedItem := ⟨some "Foo", some "1.0", none⟩

/-- Environment whose report contains one imported row and one failure. -/
def envRunBoth : RecipeEnv :=
  { envRunNoop with
    report_load := .ok ⟨some [("munki_importer_summary_result", ⟨some [rowFoo]⟩)],
      some [⟨"Bar.munki", "download failed"⟩]⟩ }

/-- Environment whose report contains one imported row and no failures. -/
def envRunImport : RecipeEnv :=
  { envRunNoop with
    report_load := .ok ⟨some [("munki_importer_summary_result", ⟨some [rowFoo]⟩)],
      some []⟩ }

/-- `envRunImport` with a failing `git push`. -/
def envRunPushFail : RecipeEnv := { envRunImport with git_push_res := .error "remote rejected" }

/-- Environment where opening/loading the report plist fails. -/
def envLoadFail : RecipeEnv := { envRunNoop with report_load := .error "unreadable" }

/-- Environment where `git checkout -b` fails (e.g. a dirty working tree). -/
def envBranchFail : RecipeEnv := { envRunNoop with checkout_new := .error "dirty" }

/-! ### Helper lemmas -/

/-- `splitHead` truncates exactly at the first occurrence of the separator:
either the input decomposes as kept-part ++ separator ++ rest, or nothing was
cut and the separator does not occur at all. -/
theorem splitHead_first (sep s : List Char) :
    (∃ t2, s = splitHead sep s ++ sep ++ t2) ∨
      (splitHead sep s = s ∧ ∀ t1 t2, s ≠ t1 ++ sep ++ t2) := by
  induction s with
  | nil =>
    cases hsep : sep with
    | nil => exact Or.inl ⟨[], rfl⟩
    | cons a l =>
      refine Or.inr ⟨rfl, fun t1 t2 h => ?_⟩
      cases t1 <;> simp_all
  | cons c rest ih =>
    by_cases hp : sep.isPrefixOf (c :: rest)
    · simp only [splitHead, if_pos hp]
      obtain ⟨t2, ht⟩ := List.isPrefixOf_iff_prefix.mp hp
      exact Or.inl ⟨t2, by simpa using ht.symm⟩
    · simp only [splitHead, if_neg hp]
      rcases ih with ⟨t2, ht⟩ | ⟨heq, hno⟩
      · refine Or.inl ⟨t2, ?_⟩
        rw [List.cons_append, List.cons_append, ← ht]
      · refine Or.inr ⟨by rw [heq], fun t1 t2 h => ?_⟩
        cases t1 with
        | nil =>
          exact hp (List.isPrefixOf_iff_prefix.mpr ⟨t2, by simpa using h.symm⟩)
        | cons d t1' =>
          rw [List.cons_append, List.cons_append] at h
          exact hno t1' t2 (List.cons.injEq .. ▸ h).2

/-- No occurrence of the separator starts strictly before the cut made by
`splitHead`: for every decomposition around the separator, the kept part is
at most as long as the decomposition's head. -/
theorem splitHead_min (sep : List Char) :
    ∀ s t1 t2 : List Char, s = t1 ++ sep ++ t2 →
      (splitHead sep s).length ≤ t1.length := by
  intro s
  induction s with
  | nil => intro t1 t2 h; simp [splitHead]
  | cons c rest ih =>
    intro t1 t2 h
    by_cases hp : sep.isPrefixOf (c :: rest)
    · simp only [splitHead, if_pos hp, List.length_nil]
      exact Nat.zero_le _
    · simp only [splitHead, if_neg hp]
      cases t1 with
      | nil =>
        exact absurd (List.isPrefixOf_iff_prefix.mpr ⟨t2, by simpa using h.symm⟩) hp
      | cons d t1' =>
        rw [List.cons_append, List.cons_append] at h
        have h2 := (List.cons.injEq .. ▸ h).2
        simpa using Nat.succ_le_succ (ih t1' t2 h2)

/-! ### Claim theorems -/

/-- C8: `parse_recipe_name` returns the identifier lower-cased with spaces
replaced by hyphens and truncated at the first occurrence of the `'.munki'`
marker (conjuncts 2 and 3 characterise the cut as the first occurrence), and
appends exactly `'-2'` — one suffix level, with no further check — whenever
that base name already appears in the live branch listing. -/
theorem c8_base_name (identifier : String) (current_branches : List String) :
    (parse_recipe_name identifier current_branches =
      if String.mk (splitHead munkiSep (pyLowerHyphen identifier).toList) ∈ current_branches
      then String.mk (splitHead munkiSep (pyLowerHyphen identifier).toList) ++ "-2"
      else String.mk (splitHead munkiSep (pyLowerHyphen identifier).toList))
    ∧ ((∃ t2, (pyLowerHyphen identifier).toList
          = splitHead munkiSep (pyLowerHyphen identifier).toList ++ munkiSep ++ t2)
       ∨ (splitHead munkiSep (pyLowerHyphen identifier).toList = (pyLowerHyphen identifier).toList
          ∧ ∀ t1 t2, (pyLowerHyphen identifier).toList ≠ t1 ++ munkiSep ++ t2))
    ∧ (∀ t1 t2, (pyLowerHyphen identifier).toList = t1 ++ munkiSep ++ t2 →
        (splitHead munkiSep (pyLowerHyphen identifier).toList).length ≤ t1.length) :=
  ⟨rfl, splitHead_first _ _, fun t1 t2 h => splitHead_min _ _ t1 t2 h⟩

/-- C8 witness: a mixed-case, space-containing identifier is hyphenated,
lower-cased and truncated at `'.munki'`; a collision yields the `-2` name
even when that name is itself taken (one suffix level only). -/
theorem c8_base_name_witness :
    parse_recipe_name "Adobe Reader.munki" ["adobe-reader", "adobe-reader-2"]
      = "adobe-reader-2" :=
  ((c8_base_name "Adobe Reader.munki" ["adobe-reader", "adobe-reader-2"]).1).trans (by decide)

/-- C2 counterexample: a report lacking the top-level `summary_results` key
(with `failures` present and empty) makes `parse_report_plist` raise
`KeyError('summary_results')` instead of returning empty lists, and a report
lacking `failures` (with `summary_results` present) raises
`KeyError('failures')`. -/
theorem c2_missing_key_counterexample :
    parse_report_plist (.ok ⟨none, some []⟩) = .error (.keyError "summary_results")
    ∧ parse_report_plist (.ok ⟨some [], none⟩) = .error (.keyError "failures") :=
  ⟨rfl, rfl⟩

/-- C2 amended: an absent top-level key raises a `KeyError` naming the key;
when both top-level keys are present, a falsy (empty) `summary_results` or
`failures` value yields an empty corresponding list without error. -/
theorem c2_empty_values_not_missing_keys :
    (∀ r : Report, r.summary_results = none →
      parse_report_plist (.ok r) = .error (.keyError "summary_results"))
    ∧ (∀ sr : List (String × MunkiSummaryResult),
      parse_report_plist (.ok ⟨some sr, none⟩) = .error (.keyError "failures"))
    ∧ (∀ fl : List FailureRecord, parse_report_plist (.ok ⟨some [], some fl⟩) = .ok ⟨[], fl⟩)
    ∧ (∀ sr : List (String × MunkiSummaryResult),
      ∃ imp, parse_report_plist (.ok ⟨some sr, some []⟩) = .ok ⟨imp, []⟩) := by
  refine ⟨fun r h => ?_, fun sr => rfl, fun fl => rfl, fun sr => ⟨_, rfl⟩⟩
  obtain ⟨osr, ofl⟩ := r
  cases h
  rfl

/-- C2 amended witness: a concrete report with both keys present and empty
parses to two empty lists; one missing `summary_results` raises. -/
theorem c2_empty_values_witness :
    parse_report_plist (.ok ⟨some [], some []⟩) = .ok ⟨[], []⟩
    ∧ parse_report_plist (.ok ⟨none, some [⟨"Bar.munki", "download failed"⟩]⟩)
        = .error (.keyError "summary_results") :=
  ⟨c2_empty_values_not_missing_keys.2.2.1 [],
   c2_empty_values_not_missing_keys.1 ⟨none, some [⟨"Bar.munki", "download failed"⟩]⟩ rfl⟩

/-- The trace of `change_feature_branch` is the single checkout command. -/
theorem cfb_trace (env : RecipeEnv) (b : String) :
    (create_feature_branch env b).1 = [Effect.checkoutNew b]
    ∨ (create_feature_branch env b).1 = [Effect.checkout "master"]
    ∨ (create_feature_branch env b).1 = [Effect.checkout "master", Effect.checkoutNew b] := by
  unfold create_feature_branch
  by_cases hm : env.current_branch ≠ "master"
  · rw [if_pos hm]
    cases hcm : env.checkout_master with
    | error err => simp [change_feature_branch]
    | ok u => cases hcn : env.checkout_new <;> simp [change_feature_branch]
  · rw [if_neg hm]
    cases hcn : env.checkout_new <;> simp [change_feature_branch]

/-- `create_feature_branch` emits only checkout effects. -/
theorem cfb_clean (env : RecipeEnv) (b : String) :
    ∀ e ∈ (create_feature_branch env b).1, e.isPost = false ∧ e.isPR = false := by
  intro e he
  rcases cfb_trace env b with h | h | h <;> rw [h] at he <;>
    simp only [List.mem_cons, List.mem_singleton, List.not_mem_nil, or_false] at he
  · subst he; exact ⟨rfl, rfl⟩
  · subst he; exact ⟨rfl, rfl⟩
  · rcases he with rfl | rfl <;> exact ⟨rfl, rfl⟩

/-- The possible traces of `create_commit`. -/
theorem commit_trace (a c : Except String Unit) (item : ImportedItem) :
    (create_commit a c item).1 = [Effect.log "Adding items...", Effect.gitAdd]
    ∨ (create_commit a c item).1
        = [Effect.log "Adding items...", Effect.gitAdd, Effect.log "Creating commit..."]
    ∨ ∃ msg, (create_commit a c item).1
        = [Effect.log "Adding items...", Effect.gitAdd, Effect.log "Creating commit...",
           Effect.gitCommit msg] := by
  unfold create_commit
  cases a with
  | error e => simp
  | ok u => cases item.name <;> cases item.version <;> cases c <;> simp

/-- `create_commit` emits only log/staging/commit effects. -/
theorem commit_clean (a c : Except String Unit) (item : ImportedItem) :
    ∀ e ∈ (create_commit a c item).1, e.isPost = false ∧ e.isPR = false := by
  intro e he
  rcases commit_trace a c item with h | h | ⟨msg, h⟩ <;> rw [h] at he <;>
    simp only [List.mem_cons, List.not_mem_nil, or_false] at he
  · rcases he with rfl | rfl <;> exact ⟨rfl, rfl⟩
  · rcases he with rfl | rfl | rfl <;> exact ⟨rfl, rfl⟩
  · rcases he with rfl | rfl | rfl | rfl <;> exact ⟨rfl, rfl⟩

/-- The possible traces of `rename_branch_version`. -/
theorem rename_trace (bl : List String) (g : Except String Unit) (b v : String) :
    (rename_branch_version bl g b v).1 = [Effect.gitBranchMove b (b ++ "-" ++ v)]
    ∨ (rename_branch_version bl g b v).1
        = [Effect.log ("Branch " ++ (b ++ "-" ++ v) ++ " already exists"),
           Effect.gitBranchMove b (b ++ "-" ++ v ++ "-2")] := by
  unfold rename_branch_version
  by_cases hc : (b ++ "-" ++ v) ∈ bl <;> cases g <;> simp [hc]

/-- `rename_branch_version` emits only a collision log and the rename. -/
theorem rename_clean (bl : List String) (g : Except String Unit) (b v : String) :
    ∀ e ∈ (rename_branch_version bl g b v).1, e.isPost = false ∧ e.isPR = false := by
  intro e he
  rcases rename_trace bl g b v with h | h <;> rw [h] at he <;>
    simp only [List.mem_cons, List.mem_singleton, List.not_mem_nil, or_false] at he
  · subst he; exact ⟨rfl, rfl⟩
  · rcases he with rfl | rfl <;> exact ⟨rfl, rfl⟩

/-- The possible traces of `git_push`. -/
theorem push_trace (g : Except String Unit) (b : String) :
    (git_push g b).1 = [Effect.log "Running `git push`...", Effect.gitPush b]
    ∨ (git_push g b).1
        = [Effect.log "Running `git push`...", Effect.gitPush b,
           Effect.log ("Failed to push branch " ++ b)] := by
  unfold git_push
  cases g <;> simp

/-- `git_push` emits only logs and the push command. -/
theorem push_clean (g : Except String Unit) (b : String) :
    ∀ e ∈ (git_push g b).1, e.isPost = false ∧ e.isPR = false := by
  intro e he
  rcases push_trace g b with h | h <;> rw [h] at he <;>
    simp only [List.mem_cons, List.not_mem_nil, or_false] at he
  · rcases he with rfl | rfl <;> exact ⟨rfl, rfl⟩
  · rcases he with rfl | rfl | rfl <;> exact ⟨rfl, rfl⟩

/-- `pull_request` never posts to Slack. -/
theorem pr_no_post (tok b : String) : ∀ e ∈ pull_request tok b, e.isPost = false := by
  intro e he
  unfold pull_request at he
  by_cases ht : tok = "" <;> simp [ht] at he
  · subst he; rfl
  · rcases he with rfl | rfl <;> rfl

/-- With an empty `GITHUB_TOKEN`, `pull_request` opens no pull request. -/
theorem pr_empty_token (b : String) :
    ∀ e ∈ pull_request "" b, e.isPR = false := by
  intro e he
  simp [pull_request] at he
  subst he; rfl

/-- No step of `process_recipe` posts to Slack (the notification is sent only
once, by `handle_recipes`, after the loop). -/
theorem process_recipe_no_post (tok recipe : String) (env : RecipeEnv) (st : AggState) :
    ∀ e ∈ (process_recipe tok recipe env st).1, e.isPost = false := by
  intro e he
  rcases hb : create_feature_branch env (parse_recipe_name recipe env.branches_at_name)
    with ⟨t0, r0⟩
  have h0 := cfb_clean env (parse_recipe_name recipe env.branches_at_name)
  rw [hb] at h0
  have h01 : ∀ e2 ∈ t0 ++ [Effect.runAutopkg recipe], Effect.isPost e2 = false := by
    intro e2 he2
    rcases List.mem_append.mp he2 with h | h
    · exact (h0 e2 h).1
    · simp only [List.mem_singleton] at h; subst h; rfl
  cases r0 with
  | error err =>
    simp only [process_recipe, hb] at he
    exact (h0 e he).1
  | ok u =>
    simp only [process_recipe, hb] at he
    cases hp : parse_report_plist env.report_load with
    | error perr =>
      simp only [hp] at he
      exact h01 e he
    | ok ro =>
      simp only [hp] at he
      by_cases hie : ro.imported = [] ∧ ro.failed = []
      · rw [if_pos hie] at he
        exact h01 e he
      · rw [if_neg hie] at he
        cases hi : ro.imported with
        | nil =>
          simp only [hi] at he
          exact h01 e he
        | cons item rest =>
          simp only [hi] at he
          rcases hc : create_commit env.git_add env.git_commit item with ⟨tc, rc⟩
          have h1 := commit_clean env.git_add env.git_commit item
          rw [hc] at h1
          have h02 : ∀ e2 ∈ t0 ++ [Effect.runAutopkg recipe] ++ tc,
              Effect.isPost e2 = false := by
            intro e2 he2
            rcases List.mem_append.mp he2 with h | h
            · exact h01 e2 h
            · exact (h1 e2 h).1
          cases rc with
          | error err =>
            simp only [hc] at he
            exact h02 e he
          | ok u2 =>
            simp only [hc] at he
            cases hv : item.version with
            | none =>
              simp only [hv] at he
              exact h02 e he
            | some ver =>
              simp only [hv] at he
              rcases hr : rename_branch_version env.branches_at_rename env.git_rename
                  (parse_recipe_name recipe env.branches_at_name) ver with ⟨t3, r3⟩
              have h2 := rename_clean env.branches_at_rename env.git_rename
                  (parse_recipe_name recipe env.branches_at_name) ver
              rw [hr] at h2
              have h03 : ∀ e2 ∈ t0 ++ [Effect.runAutopkg recipe] ++ tc ++ t3,
                  Effect.isPost e2 = false := by
                intro e2 he2
                rcases List.mem_append.mp he2 with h | h
                · exact h02 e2 h
                · exact (h2 e2 h).1
              cases r3 with
              | error err =>
                simp only [hr] at he
                exact h03 e he
              | ok bv =>
                simp only [hr] at he
                have h3 := push_clean env.git_push_res bv
                have h04 : ∀ e2 ∈ t0 ++ [Effect.runAutopkg recipe] ++ tc ++ t3
                    ++ (git_push env.git_push_res bv).1, Effect.isPost e2 = false := by
                  intro e2 he2
                  rcases List.mem_append.mp he2 with h | h
                  · exact h03 e2 h
                  · exact (h3 e2 h).1
                by_cases hs : (git_push env.git_push_res bv).2.success = true
                · rw [if_pos hs] at he
                  rcases List.mem_append.mp he with h | h
                  · exact h04 e h
                  · exact pr_no_post tok bv e h
                · rw [if_neg hs] at he
                  exact h04 e he

/-- No iteration of the recipe loop posts to Slack. -/
theorem loop_no_post (tok : String) (batch : List (String × RecipeEnv)) :
    ∀ st, ∀ e ∈ (handle_recipes_loop tok batch st).1, e.isPost = false := by
  induction batch with
  | nil => intro st e he; simp [handle_recipes_loop] at he
  | cons p rest ih =>
    intro st e he
    obtain ⟨recipe, env⟩ := p
    rcases hp : process_recipe tok recipe env st with ⟨t, r⟩
    cases r with
    | error err =>
      simp only [handle_recipes_loop, hp] at he
      exact process_recipe_no_post tok recipe env st e (by rw [hp]; exact he)
    | ok st1 =>
      rcases hl : handle_recipes_loop tok rest st1 with ⟨t2, r2⟩
      simp only [handle_recipes_loop, hp, hl] at he
      rcases List.mem_append.mp he with h | h
      · exact process_recipe_no_post tok recipe env st e (by rw [hp]; exact h)
      · exact ih st1 e (by rw [hl]; exact h)

/-- Unfolding the recipe loop across an append, when the prefix succeeds. -/
theorem loop_append_ok (tok : String) (pre rest : List (String × RecipeEnv)) :
    ∀ st0 t st1, handle_recipes_loop tok pre st0 = (t, Except.ok st1) →
      handle_recipes_loop tok (pre ++ rest) st0
        = (t ++ (handle_recipes_loop tok rest st1).1,
           (handle_recipes_loop tok rest st1).2) := by
  induction pre with
  | nil =>
    intro st0 t st1 h
    have h1 := congrArg Prod.fst h
    have h2 := congrArg Prod.snd h
    simp only [handle_recipes_loop, Prod.fst, Prod.snd] at h1 h2
    cases h2
    subst h1
    simp [handle_recipes_loop]
  | cons p pre ih =>
    intro st0 t st1 h
    obtain ⟨recipe, env⟩ := p
    rcases hp : process_recipe tok recipe env st0 with ⟨tp, rp⟩
    cases rp with
    | error err =>
      simp only [handle_recipes_loop, hp] at h
      have h2 := congrArg Prod.snd h
      simp at h2
    | ok stMid =>
      rcases hl : handle_recipes_loop tok pre stMid with ⟨t2, r2⟩
      simp only [handle_recipes_loop, hp, hl] at h
      have h1 := congrArg Prod.fst h
      have h2 := congrArg Prod.snd h
      simp only [Prod.fst, Prod.snd] at h1 h2
      subst h1
      cases h2
      have hstep := ih stMid t2 st1 hl
      simp only [List.cons_append, handle_recipes_loop, hp, List.append_eq]
      rw [hstep]
      simp [List.append_assoc]

/-- C1 counterexample: a two-recipe batch whose first recipe has an
unreadable report aborts immediately — the returned trace shows the second
recipe was never attempted (no effect of it appears) and no Slack post was
made, and the batch ends in an uncaught error instead of reaching the
notification step. -/
theorem c1_counterexample :
    handle_recipes "t" "https://hook" [("a.munki", envLoadFail), ("b.munki", envRunNoop)]
      = ([Effect.checkoutNew "a", Effect.runAutopkg "a.munki"],
         Except.error (PyErr.ioError "unreadable"))
    ∧ Effect.runAutopkg "b.munki" ∉
        [Effect.checkoutNew "a", Effect.runAutopkg "a.munki"] :=
  ⟨by rfl, by decide⟩

/-- C1 amended: a branch-ensure failure (part 1) or a report-parse failure
(part 2) is fatal to the *whole batch*: `handle_recipes` propagates the
uncaught exception, recipes after the failing one contribute nothing to the
trace, and (part 3) an aborted batch never posts the Slack notification. -/
theorem c1_batch_abort :
    (∀ (tok wh r : String) (pre post : List (String × RecipeEnv)) (env : RecipeEnv)
        (trPre tb : List Effect) (st : AggState) (err : PyErr),
      handle_recipes_loop tok pre ⟨[], [], []⟩ = (trPre, Except.ok st) →
      create_feature_branch env (parse_recipe_name r env.branches_at_name)
        = (tb, Except.error err) →
      handle_recipes tok wh (pre ++ (r, env) :: post) = (trPre ++ tb, Except.error err))
    ∧ (∀ (tok wh r : String) (pre post : List (String × RecipeEnv)) (env : RecipeEnv)
        (trPre tb : List Effect) (st : AggState) (perr : PyErr),
      handle_recipes_loop tok pre ⟨[], [], []⟩ = (trPre, Except.ok st) →
      create_feature_branch env (parse_recipe_name r env.branches_at_name)
        = (tb, Except.ok ()) →
      parse_report_plist env.report_load = Except.error perr →
      handle_recipes tok wh (pre ++ (r, env) :: post)
        = (trPre ++ (tb ++ [Effect.runAutopkg r]), Except.error perr))
    ∧ (∀ (tok wh : String) (batch : List (String × RecipeEnv)) (tr : List Effect)
        (err : PyErr),
      handle_recipes tok wh batch = (tr, Except.error err) →
      ∀ msg, Effect.postSlack msg ∉ tr) := by
  refine ⟨?_, ?_, ?_⟩
  · intro tok wh r pre post env trPre tb st err hPre hb
    have hproc : process_recipe tok r env st = (tb, Except.error err) := by
      simp only [process_recipe, hb]
    have hloop1 : handle_recipes_loop tok ((r, env) :: post) st = (tb, Except.error err) := by
      simp only [handle_recipes_loop, hproc]
    have hfull := loop_append_ok tok pre ((r, env) :: post) ⟨[], [], []⟩ trPre st hPre
    rw [hloop1] at hfull
    simp only [handle_recipes, hfull]
  · intro tok wh r pre post env trPre tb st perr hPre hb hp
    have hproc : process_recipe tok r env st
        = (tb ++ [Effect.runAutopkg r], Except.error perr) := by
      simp only [process_recipe, hb, hp]
    have hloop1 : handle_recipes_loop tok ((r, env) :: post) st
        = (tb ++ [Effect.runAutopkg r], Except.error perr) := by
      simp only [handle_recipes_loop, hproc]
    have hfull := loop_append_ok tok pre ((r, env) :: post) ⟨[], [], []⟩ trPre st hPre
    rw [hloop1] at hfull
    simp only [handle_recipes, hfull]
  · intro tok wh batch tr err h msg hmem
    rcases hl : handle_recipes_loop tok batch ⟨[], [], []⟩ with ⟨t, r⟩
    cases r with
    | error e =>
      simp only [handle_recipes, hl] at h
      have h1 := congrArg Prod.fst h
      simp only [Prod.fst] at h1
      subst h1
      have := loop_no_post tok batch ⟨[], [], []⟩ (Effect.postSlack msg)
        (by rw [hl]; exact hmem)
      simp [Effect.isPost] at this
    | ok st =>
      simp only [handle_recipes, hl] at h
      by_cases hw : wh = ""
      · rw [if_pos hw] at h
        have h2 := congrArg Prod.snd h
        simp at h2
      · rw [if_neg hw] at h
        cases hf : format_slack_message st.imported st.failed st.git_errors with
        | error k =>
          simp only [hf] at h
          have h1 := congrArg Prod.fst h
          simp only [Prod.fst] at h1
          subst h1
          have := loop_no_post tok batch ⟨[], [], []⟩ (Effect.postSlack msg)
            (by rw [hl]; exact hmem)
          simp [Effect.isPost] at this
        | ok m2 =>
          simp only [hf] at h
          have h2 := congrArg Prod.snd h
          simp at h2

/-- C1 witness: a one-recipe batch whose checkout fails propagates the
`BranchError` out of `handle_recipes`. -/
theorem c1_batch_abort_witness :
    handle_recipes "t" "https://hook" [("x.munki", envBranchFail)]
      = ([Effect.checkoutNew "x"],
         Except.error (PyErr.branchError "Couldn't switch to 'x': Git error: dirty")) := by
  have h := c1_batch_abort.1 "t" "https://hook" "x.munki" [] [] envBranchFail []
    [Effect.checkoutNew "x"] ⟨[], [], []⟩
    (PyErr.branchError "Couldn't switch to 'x': Git error: dirty") rfl (by rfl)
  simpa using h

/-- C3 counterexample: a recipe whose parsed outcome is empty on both sides
still performed a version-control mutation — the feature branch was created
(`git checkout -b foo`) before the report was parsed. -/
theorem c3_counterexample :
    process_recipe "t" "Foo.munki" envRunNoop ⟨[], [], []⟩
      = ([Effect.checkoutNew "foo", Effect.runAutopkg "Foo.munki"], Except.ok ⟨[], [], []⟩)
    ∧ Effect.checkoutNew "foo"
        ∈ (process_recipe "t" "Foo.munki" envRunNoop ⟨[], [], []⟩).1
    ∧ Effect.isVCMutation (Effect.checkoutNew "foo") = true :=
  ⟨by rfl, by decide, by decide⟩

/-- C3 amended: when the parsed outcome has `imported` and `failed` both
empty, the recipe step leaves the aggregate state exactly unchanged and
performs no version-control action *after* the report is parsed: the whole
trace is the pre-run feature-branch creation plus the autopkg invocation. -/
theorem c3_noop_after_parse (tok recipe : String) (env : RecipeEnv) (st : AggState)
    (tb : List Effect)
    (hb : create_feature_branch env (parse_recipe_name recipe env.branches_at_name)
            = (tb, Except.ok ()))
    (hp : parse_report_plist env.report_load = Except.ok ⟨[], []⟩) :
    process_recipe tok recipe env st = (tb ++ [Effect.runAutopkg recipe], Except.ok st) := by
  simp only [process_recipe, hb, hp]
  simp

/-- C3 witness: the no-op law applied to a concrete no-op environment. -/
theorem c3_noop_witness :
    process_recipe "t" "Foo.munki" envRunNoop ⟨[], [], []⟩
      = ([Effect.checkoutNew "foo"] ++ [Effect.runAutopkg "Foo.munki"],
         Except.ok ⟨[], [], []⟩) :=
  c3_noop_after_parse "t" "Foo.munki" envRunNoop ⟨[], [], []⟩
    [Effect.checkoutNew "foo"] (by rfl) (by rfl)

/-- C4 counterexample: a report carrying both a failure entry and an
imported row makes the same recipe run append a record to `failed` *and* an
item to `imported` — the run contributes to both aggregate lists, not to at
most one of them. -/
theorem c4_counterexample :
    (process_recipe "t" "Foo.munki" envRunBoth ⟨[], [], []⟩).2
      = Except.ok ⟨[⟨some "Foo", some "1.0", some "foo"⟩],
          [⟨"Bar.munki", "download failed"⟩], []⟩ := by rfl

/-- C4 amended: per recipe run, at most the *first* failure record and at
most one imported item (and at most one push-error outcome) are appended;
whenever the report has any failures, exactly its first failure is appended,
regardless of whether an imported item is also recorded. -/
theorem c4_at_most_first_of_each (tok recipe : String) (env : RecipeEnv) (st : AggState)
    (tr : List Effect) (st' : AggState)
    (h : process_recipe tok recipe env st = (tr, Except.ok st')) :
    ∃ ro, parse_report_plist env.report_load = Except.ok ro
      ∧ st'.failed = st.failed ++ (if ro.failed = [] then [] else [ro.failed.headI])
      ∧ (st'.imported = st.imported ∨ ∃ i, st'.imported = st.imported ++ [i])
      ∧ (st'.git_errors = st.git_errors ∨ ∃ g, st'.git_errors = st.git_errors ++ [g]) := by
  rcases hb : create_feature_branch env (parse_recipe_name recipe env.branches_at_name)
    with ⟨t0, r0⟩
  cases r0 with
  | error err =>
    simp only [process_recipe, hb] at h
    have h2 := congrArg Prod.snd h
    simp at h2
  | ok u =>
    simp only [process_recipe, hb] at h
    cases hp : parse_report_plist env.report_load with
    | error perr =>
      simp only [hp] at h
      have h2 := congrArg Prod.snd h
      simp at h2
    | ok ro =>
      refine ⟨ro, rfl, ?_⟩
      simp only [hp] at h
      by_cases hie : ro.imported = [] ∧ ro.failed = []
      · rw [if_pos hie] at h
        have h2 := congrArg Prod.snd h
        simp only [Prod.snd] at h2
        cases h2
        refine ⟨?_, Or.inl rfl, Or.inl rfl⟩
        rw [if_pos hie.2]
        simp
      · rw [if_neg hie] at h
        cases hi : ro.imported with
        | nil =>
          simp only [hi] at h
          have hf : ¬ ro.failed = [] := fun hfe => hie ⟨hi, hfe⟩
          rw [if_neg hf] at h
          have h2 := congrArg Prod.snd h
          simp only [Prod.snd] at h2
          cases h2
          refine ⟨?_, Or.inl rfl, Or.inl rfl⟩
          rw [if_neg hf]
        | cons item rest =>
          simp only [hi] at h
          rcases hc : create_commit env.git_add env.git_commit item with ⟨tc, rc⟩
          cases rc with
          | error err =>
            simp only [hc] at h
            have h2 := congrArg Prod.snd h
            simp at h2
          | ok u2 =>
            simp only [hc] at h
            cases hv : item.version with
            | none =>
              simp only [hv] at h
              have h2 := congrArg Prod.snd h
              simp at h2
            | some ver =>
              simp only [hv] at h
              rcases hr : rename_branch_version env.branches_at_rename env.git_rename
                  (parse_recipe_name recipe env.branches_at_name) ver with ⟨t3, r3⟩
              cases r3 with
              | error err =>
                simp only [hr] at h
                have h2 := congrArg Prod.snd h
                simp at h2
              | ok bv =>
                simp only [hr] at h
                by_cases hs : (git_push env.git_push_res bv).2.success = true
                · rw [if_pos hs] at h
                  have h2 := congrArg Prod.snd h
                  simp only [Prod.snd] at h2
                  cases h2
                  refine ⟨?_,
                    Or.inr ⟨⟨item.name, some ver,
                      some (parse_recipe_name recipe env.branches_at_name)⟩, ?_⟩,
                    Or.inl ?_⟩ <;>
                    by_cases hf : ro.failed = [] <;> simp [hf]
                · rw [if_neg hs] at h
                  have h2 := congrArg Prod.snd h
                  simp only [Prod.snd] at h2
                  cases h2
                  refine ⟨?_, Or.inl ?_,
                    Or.inr ⟨(git_push env.git_push_res bv).2, ?_⟩⟩ <;>
                    by_cases hf : ro.failed = [] <;> simp [hf]

/-- C4 witness: the amended bound applied to the concrete both-sides run
(which appends the first failure and one imported item). -/
theorem c4_at_most_witness :
    ∃ ro, parse_report_plist envRunBoth.report_load = Except.ok ro
      ∧ (⟨[⟨some "Foo", some "1.0", some "foo"⟩],
           [⟨"Bar.munki", "download failed"⟩], []⟩ : AggState).failed
          = (⟨[], [], []⟩ : AggState).failed
              ++ (if ro.failed = [] then [] else [ro.failed.headI])
      ∧ ((⟨[⟨some "Foo", some "1.0", some "foo"⟩],
            [⟨"Bar.munki", "download failed"⟩], []⟩ : AggState).imported
            = (⟨[], [], []⟩ : AggState).imported
          ∨ ∃ i, (⟨[⟨some "Foo", some "1.0", some "foo"⟩],
              [⟨"Bar.munki", "download failed"⟩], []⟩ : AggState).imported
              = (⟨[], [], []⟩ : AggState).imported ++ [i])
      ∧ ((⟨[⟨some "Foo", some "1.0", some "foo"⟩],
            [⟨"Bar.munki", "download failed"⟩], []⟩ : AggState).git_errors
            = (⟨[], [], []⟩ : AggState).git_errors
          ∨ ∃ g, (⟨[⟨some "Foo", some "1.0", some "foo"⟩],
              [⟨"Bar.munki", "download failed"⟩], []⟩ : AggState).git_errors
              = (⟨[], [], []⟩ : AggState).git_errors ++ [g]) :=
  c4_at_most_first_of_each "t" "Foo.munki" envRunBoth ⟨[], [], []⟩
    [Effect.checkoutNew "foo", Effect.runAutopkg "Foo.munki",
     Effect.log "Adding items...", Effect.gitAdd, Effect.log "Creating commit...",
     Effect.gitCommit "Update Foo to version 1.0",
     Effect.gitBranchMove "foo" "foo-1.0",
     Effect.log "Running `git push`...", Effect.gitPush "foo-1.0",
     Effect.log "Creating Pull Request...", Effect.openPullRequest "foo-1.0"]
    ⟨[⟨some "Foo", some "1.0", some "foo"⟩], [⟨"Bar.munki", "download failed"⟩], []⟩
    (by rfl)

/-- C5: `git_push` never raises — it returns a structured outcome in both
cases, on failure `{success: false, error, branch}` naming the failed branch
(parts 1–2); and on a push failure the orchestrator appends exactly that
outcome to the git-errors aggregate, opens no review request, and leaves the
imported aggregate unchanged (part 3). -/
theorem c5_push_failure :
    (∀ stderr branch, git_push (Except.error stderr) branch
        = ([Effect.log "Running `git push`...", Effect.gitPush branch,
            Effect.log ("Failed to push branch " ++ branch)],
           ⟨false, some ("Git error: " ++ stderr), some branch⟩))
    ∧ (∀ branch, git_push (Except.ok ()) branch
        = ([Effect.log "Running `git push`...", Effect.gitPush branch],
           ⟨true, none, none⟩))
    ∧ (∀ (tok recipe : String) (env : RecipeEnv) (st : AggState)
        (tb tc tr2 : List Effect) (ro : RunOutcome) (item : ImportedItem)
        (rest : List ImportedItem) (ver nv stderr : String),
      create_feature_branch env (parse_recipe_name recipe env.branches_at_name)
          = (tb, Except.ok ()) →
      parse_report_plist env.report_load = Except.ok ro →
      ro.imported = item :: rest →
      create_commit env.git_add env.git_commit item = (tc, Except.ok ()) →
      item.version = some ver →
      rename_branch_version env.branches_at_rename env.git_rename
          (parse_recipe_name recipe env.branches_at_name) ver = (tr2, Except.ok nv) →
      env.git_push_res = Except.error stderr →
      process_recipe tok recipe env st =
        (tb ++ [Effect.runAutopkg recipe] ++ tc ++ tr2
           ++ [Effect.log "Running `git push`...", Effect.gitPush nv,
               Effect.log ("Failed to push branch " ++ nv)],
         Except.ok ⟨st.imported,
           st.failed ++ (if ro.failed = [] then [] else [ro.failed.headI]),
           st.git_errors ++ [⟨false, some ("Git error: " ++ stderr), some nv⟩]⟩)
      ∧ ∀ b, Effect.openPullRequest b ∉ (process_recipe tok recipe env st).1) := by
  refine ⟨fun stderr branch => rfl, fun branch => rfl, ?_⟩
  intro tok recipe env st tb tc tr2 ro item rest ver nv stderr hb hp hi hcm hv hrn hpush
  have heq : process_recipe tok recipe env st =
      (tb ++ [Effect.runAutopkg recipe] ++ tc ++ tr2
         ++ [Effect.log "Running `git push`...", Effect.gitPush nv,
             Effect.log ("Failed to push branch " ++ nv)],
       Except.ok ⟨st.imported,
         st.failed ++ (if ro.failed = [] then [] else [ro.failed.headI]),
         st.git_errors ++ [⟨false, some ("Git error: " ++ stderr), some nv⟩]⟩) := by
    simp only [process_recipe, hb, hp, hi, hcm, hv, hrn, hpush, git_push]
    by_cases hf : ro.failed = [] <;> simp [hf, List.append_assoc]
  refine ⟨heq, ?_⟩
  intro b hbmem
  rw [heq] at hbmem
  have hcfb := cfb_clean env (parse_recipe_name recipe env.branches_at_name)
  rw [hb] at hcfb
  have hcc := commit_clean env.git_add env.git_commit item
  rw [hcm] at hcc
  have hrc := rename_clean env.branches_at_rename env.git_rename
      (parse_recipe_name recipe env.branches_at_name) ver
  rw [hrn] at hrc
  rcases List.mem_append.mp hbmem with h | h
  · rcases List.mem_append.mp h with h | h
    · rcases List.mem_append.mp h with h | h
      · rcases List.mem_append.mp h with h | h
        · exact absurd (hcfb _ h).2 (by simp [Effect.isPR])
        · simp at h
      · exact absurd (hcc _ h).2 (by simp [Effect.isPR])
    · exact absurd (hrc _ h).2 (by simp [Effect.isPR])
  · simp at h

/-- C5 witness: a concrete failing push (`remote rejected`): outcome recorded
in the git-errors aggregate, no review request, imported unchanged. -/
theorem c5_push_failure_witness :
    process_recipe "t" "Foo.munki" envRunPushFail ⟨[], [], []⟩ =
      ([Effect.checkoutNew "foo"] ++ [Effect.runAutopkg "Foo.munki"]
         ++ [Effect.log "Adding items...", Effect.gitAdd, Effect.log "Creating commit...",
             Effect.gitCommit "Update Foo to version 1.0"]
         ++ [Effect.gitBranchMove "foo" "foo-1.0"]
         ++ [Effect.log "Running `git push`...", Effect.gitPush "foo-1.0",
             Effect.log ("Failed to push branch " ++ "foo-1.0")],
       Except.ok ⟨([] : List ImportedItem),
         [] ++ (if ([] : List FailureRecord) = [] then [] else [([] : List FailureRecord).headI]),
         [] ++ [⟨false, some ("Git error: " ++ "remote rejected"), some "foo-1.0"⟩]⟩) :=
  (c5_push_failure.2.2 "t" "Foo.munki" envRunPushFail ⟨[], [], []⟩
    [Effect.checkoutNew "foo"]
    [Effect.log "Adding items...", Effect.gitAdd, Effect.log "Creating commit...",
     Effect.gitCommit "Update Foo to version 1.0"]
    [Effect.gitBranchMove "foo" "foo-1.0"]
    ⟨[rowFoo], []⟩ rowFoo [] "1.0" "foo-1.0" "remote rejected"
    (by rfl) (by rfl) rfl (by rfl) rfl (by rfl) rfl).1

/-- C6 counterexample: with an empty `GITHUB_TOKEN` a successful push still
opens no review request (the pull-request step is soft-skipped), although
the item is recorded as imported — refuting the unconditional "a review
request is opened for the pushed branch". -/
theorem c6_counterexample :
    process_recipe "" "Foo.munki" envRunImport ⟨[], [], []⟩
      = ([Effect.checkoutNew "foo", Effect.runAutopkg "Foo.munki",
          Effect.log "Adding items...", Effect.gitAdd, Effect.log "Creating commit...",
          Effect.gitCommit "Update Foo to version 1.0",
          Effect.gitBranchMove "foo" "foo-1.0",
          Effect.log "Running `git push`...", Effect.gitPush "foo-1.0",
          Effect.log "Pull request not created.. GITHUB_TOKEN not set"],
         Except.ok ⟨[⟨some "Foo", some "1.0", some "foo"⟩], [], []⟩)
    ∧ Effect.openPullRequest "foo-1.0" ∉
        [Effect.checkoutNew "foo", Effect.runAutopkg "Foo.munki",
         Effect.log "Adding items...", Effect.gitAdd, Effect.log "Creating commit...",
         Effect.gitCommit "Update Foo to version 1.0",
         Effect.gitBranchMove "foo" "foo-1.0",
         Effect.log "Running `git push`...", Effect.gitPush "foo-1.0",
         Effect.log "Pull request not created.. GITHUB_TOKEN not set"] :=
  ⟨by rfl, by decide⟩

/-- C6 amended: on a successful push the item appended to the imported
aggregate carries `branchname` equal to the pre-version-qualification base
name from step 1 (not the version-qualified name `nv` that was pushed), and
a review request is opened for the pushed branch exactly when the
`GITHUB_TOKEN` credential is non-empty (otherwise the step is soft-skipped). -/
theorem c6_annotate_and_review :
    ∀ (tok recipe : String) (env : RecipeEnv) (st : AggState)
      (tb tc tr2 : List Effect) (ro : RunOutcome) (item : ImportedItem)
      (rest : List ImportedItem) (ver nv : String),
      create_feature_branch env (parse_recipe_name recipe env.branches_at_name)
          = (tb, Except.ok ()) →
      parse_report_plist env.report_load = Except.ok ro →
      ro.imported = item :: rest →
      create_commit env.git_add env.git_commit item = (tc, Except.ok ()) →
      item.version = some ver →
      rename_branch_version env.branches_at_rename env.git_rename
          (parse_recipe_name recipe env.branches_at_name) ver = (tr2, Except.ok nv) →
      env.git_push_res = Except.ok () →
      process_recipe tok recipe env st =
        (tb ++ [Effect.runAutopkg recipe] ++ tc ++ tr2
           ++ [Effect.log "Running `git push`...", Effect.gitPush nv]
           ++ pull_request tok nv,
         Except.ok ⟨st.imported
             ++ [⟨item.name, some ver, some (parse_recipe_name recipe env.branches_at_name)⟩],
           st.failed ++ (if ro.failed = [] then [] else [ro.failed.headI]),
           st.git_errors⟩)
      ∧ (tok ≠ "" → Effect.openPullRequest nv ∈ (process_recipe tok recipe env st).1)
      ∧ (tok = "" → ∀ b, Effect.openPullRequest b ∉ (process_recipe tok recipe env st).1) := by
  intro tok recipe env st tb tc tr2 ro item rest ver nv hb hp hi hcm hv hrn hpush
  have heq : process_recipe tok recipe env st =
      (tb ++ [Effect.runAutopkg recipe] ++ tc ++ tr2
         ++ [Effect.log "Running `git push`...", Effect.gitPush nv]
         ++ pull_request tok nv,
       Except.ok ⟨st.imported
           ++ [⟨item.name, some ver, some (parse_recipe_name recipe env.branches_at_name)⟩],
         st.failed ++ (if ro.failed = [] then [] else [ro.failed.headI]),
         st.git_errors⟩) := by
    simp only [process_recipe, hb, hp, hi, hcm, hv, hrn, hpush, git_push]
    by_cases hf : ro.failed = [] <;> simp [hf, List.append_assoc]
  refine ⟨heq, ?_, ?_⟩
  · intro htok
    rw [heq]
    apply List.mem_append.mpr
    right
    simp [pull_request, htok]
  · intro htok b hbmem
    subst htok
    rw [heq] at hbmem
    have hcfb := cfb_clean env (parse_recipe_name recipe env.branches_at_name)
    rw [hb] at hcfb
    have hcc := commit_clean env.git_add env.git_commit item
    rw [hcm] at hcc
    have hrc := rename_clean env.branches_at_rename env.git_rename
        (parse_recipe_name recipe env.branches_at_name) ver
    rw [hrn] at hrc
    rcases List.mem_append.mp hbmem with h | h
    · rcases List.mem_append.mp h with h | h
      · rcases List.mem_append.mp h with h | h
        · rcases List.mem_append.mp h with h | h
          · rcases List.mem_append.mp h with h | h
            · exact absurd (hcfb _ h).2 (by simp [Effect.isPR])
            · simp at h
          · exact absurd (hcc _ h).2 (by simp [Effect.isPR])
        · exact absurd (hrc _ h).2 (by simp [Effect.isPR])
      · simp at h
    · exact absurd (pr_empty_token nv _ h) (by simp [Effect.isPR])

/-- C6 witness: a concrete successful push with a configured token: the
imported item carries `branchname = "foo"` (the base name, not the pushed
`"foo-1.0"`) and the review request for `"foo-1.0"` appears in the trace. -/
theorem c6_annotate_witness :
    (process_recipe "t" "Foo.munki" envRunImport ⟨[], [], []⟩ =
      ([Effect.checkoutNew "foo"] ++ [Effect.runAutopkg "Foo.munki"]
         ++ [Effect.log "Adding items...", Effect.gitAdd, Effect.log "Creating commit...",
             Effect.gitCommit "Update Foo to version 1.0"]
         ++ [Effect.gitBranchMove "foo" "foo-1.0"]
         ++ [Effect.log "Running `git push`...", Effect.gitPush "foo-1.0"]
         ++ pull_request "t" "foo-1.0",
       Except.ok ⟨[] ++ [⟨some "Foo", some "1.0", some "foo"⟩],
         [] ++ (if ([] : List FailureRecord) = [] then [] else [([] : List FailureRecord).headI]),
         []⟩))
    ∧ Effect.openPullRequest "foo-1.0"
        ∈ (process_recipe "t" "Foo.munki" envRunImport ⟨[], [], []⟩).1 := by
  have h := c6_annotate_and_review "t" "Foo.munki" envRunImport ⟨[], [], []⟩
    [Effect.checkoutNew "foo"]
    [Effect.log "Adding items...", Effect.gitAdd, Effect.log "Creating commit...",
     Effect.gitCommit "Update Foo to version 1.0"]
    [Effect.gitBranchMove "foo" "foo-1.0"]
    ⟨[rowFoo], []⟩ rowFoo [] "1.0" "foo-1.0"
    (by rfl) (by rfl) rfl (by rfl) rfl (by rfl) rfl
  exact ⟨h.1, h.2.1 (by decide)⟩

/-- C7: in every successfully composed payload, the first attachment's block
after the summary header is the "nothing to import" notice exactly when the
imported list is empty and the imported-items header exactly when it is
non-empty; a failures attachment is present iff `failed` is non-empty; a
git-errors attachment is present iff `git_info` is non-empty; and
`compose([], [], [])` is exactly the summary attachment with the
nothing-to-import notice and no other attachment. -/
theorem c7_compose_sections (imported : List ImportedItem) (failed : List FailureRecord)
    (git_info : List PushOutcome) (m : SlackMessage)
    (h : format_slack_message imported failed git_info = Except.ok m) :
    (mainSecondBlock m = some nothingNotice ↔ imported = [])
    ∧ (mainSecondBlock m = some importedHeader ↔ imported ≠ [])
    ∧ (hasFailuresSection m = true ↔ failed ≠ [])
    ∧ (hasGitErrorsSection m = true ↔ git_info ≠ [])
    ∧ (imported = [] → failed = [] → git_info = [] →
        m = ⟨[], [⟨"#4bb543", [packageHeader, nothingNotice]⟩]⟩) := by
  have hmain : ∃ mainBlocks gitTail,
      m = ⟨[], (Attachment.mk "#4bb543" (packageHeader :: mainBlocks)
            :: (if failed.isEmpty then [] else failures_message failed)) ++ gitTail⟩
      ∧ (imported = [] → mainBlocks = [nothingNotice])
      ∧ (imported ≠ [] → ∃ ls, mainBlocks = importedHeader :: ls)
      ∧ (git_info = [] → gitTail = [])
      ∧ (git_info ≠ [] →
          ∃ gls, gitTail = [⟨"#f2c744", [Block.divider, githubHeader] ++ gls⟩]) := by
    cases imported with
    | nil =>
      simp only [format_slack_message, List.isEmpty_nil] at h
      cases git_info with
      | nil =>
        simp only [List.isEmpty_nil] at h
        injection h with h1
        refine ⟨[nothingNotice], [], ?_, fun _ => rfl, fun hc => absurd rfl hc,
          fun _ => rfl, fun hc => absurd rfl hc⟩
        subst h1
        by_cases hfl : failed.isEmpty <;> simp [hfl]
      | cons g gs =>
        simp only [List.isEmpty_cons] at h
        cases hgel : git_error_lines (g :: gs) with
        | error e => rw [git_errors_message, hgel] at h; simp at h
        | ok gls =>
          rw [git_errors_message, hgel] at h
          injection h with h1
          refine ⟨[nothingNotice], [⟨"#f2c744", [Block.divider, githubHeader] ++ gls⟩],
            ?_, fun _ => rfl, fun hc => absurd rfl hc,
            fun hc => by simp at hc, fun _ => ⟨gls, rfl⟩⟩
          subst h1
          by_cases hfl : failed.isEmpty <;> simp [hfl]
    | cons i is =>
      simp only [format_slack_message, List.isEmpty_cons] at h
      cases hil : imported_lines (i :: is) with
      | error e => rw [imported_message, hil] at h; simp at h
      | ok ls =>
        rw [imported_message, hil] at h
        cases git_info with
        | nil =>
          simp only [List.isEmpty_nil] at h
          injection h with h1
          refine ⟨importedHeader :: ls, [], ?_, fun hc => by simp at hc,
            fun _ => ⟨ls, rfl⟩, fun _ => rfl, fun hc => absurd rfl hc⟩
          subst h1
          by_cases hfl : failed.isEmpty <;> simp [hfl]
        | cons g gs =>
          simp only [List.isEmpty_cons] at h
          cases hgel : git_error_lines (g :: gs) with
          | error e => rw [git_errors_message, hgel] at h; simp at h
          | ok gls =>
            rw [git_errors_message, hgel] at h
            injection h with h1
            refine ⟨importedHeader :: ls,
              [⟨"#f2c744", [Block.divider, githubHeader] ++ gls⟩],
              ?_, fun hc => by simp at hc, fun _ => ⟨ls, rfl⟩,
              fun hc => by simp at hc, fun _ => ⟨gls, rfl⟩⟩
            subst h1
            by_cases hfl : failed.isEmpty <;> simp [hfl]
  obtain ⟨mainBlocks, gitTail, hm, hmb0, hmb1, hgt0, hgt1⟩ := hmain
  subst hm
  cases imported with
  | nil =>
    have hx := hmb0 rfl
    subst hx
    cases git_info with
    | nil =>
      have hy := hgt0 rfl
      subst hy
      cases failed with
      | nil =>
        refine ⟨?_, ?_, ?_, ?_, ?_⟩ <;>
          simp [mainSecondBlock, hasFailuresSection, hasGitErrorsSection, failures_message,
            nothingNotice, importedHeader, warningHeader, githubHeader, packageHeader]
      | cons f fs =>
        refine ⟨?_, ?_, ?_, ?_, ?_⟩ <;>
          simp [mainSecondBlock, hasFailuresSection, hasGitErrorsSection, failures_message,
            nothingNotice, importedHeader, warningHeader, githubHeader, packageHeader]
    | cons g gs =>
      obtain ⟨gls, hy⟩ := hgt1 (by simp)
      subst hy
      cases failed with
      | nil =>
        refine ⟨?_, ?_, ?_, ?_, ?_⟩ <;>
          simp [mainSecondBlock, hasFailuresSection, hasGitErrorsSection, failures_message,
            nothingNotice, importedHeader, warningHeader, githubHeader, packageHeader]
      | cons f fs =>
        refine ⟨?_, ?_, ?_, ?_, ?_⟩ <;>
          simp [mainSecondBlock, hasFailuresSection, hasGitErrorsSection, failures_message,
            nothingNotice, importedHeader, warningHeader, githubHeader, packageHeader]
  | cons i is =>
    obtain ⟨ls, hx⟩ := hmb1 (by simp)
    subst hx
    cases git_info with
    | nil =>
      have hy := hgt0 rfl
      subst hy
      cases failed with
      | nil =>
        refine ⟨?_, ?_, ?_, ?_, ?_⟩ <;>
          simp [mainSecondBlock, hasFailuresSection, hasGitErrorsSection, failures_message,
            nothingNotice, importedHeader, warningHeader, githubHeader, packageHeader]
      | cons f fs =>
        refine ⟨?_, ?_, ?_, ?_, ?_⟩ <;>
          simp [mainSecondBlock, hasFailuresSection, hasGitErrorsSection, failures_message,
            nothingNotice, importedHeader, warningHeader, githubHeader, packageHeader]
    | cons g gs =>
      obtain ⟨gls, hy⟩ := hgt1 (by simp)
      subst hy
      cases failed with
      | nil =>
        refine ⟨?_, ?_, ?_, ?_, ?_⟩ <;>
          simp [mainSecondBlock, hasFailuresSection, hasGitErrorsSection, failures_message,
            nothingNotice, importedHeader, warningHeader, githubHeader, packageHeader]
      | cons f fs =>
        refine ⟨?_, ?_, ?_, ?_, ?_⟩ <;>
          simp [mainSecondBlock, hasFailuresSection, hasGitErrorsSection, failures_message,
            nothingNotice, importedHeader, warningHeader, githubHeader, packageHeader]

/-- C7 witness: the concrete `compose([], [], [])` payload carries the
nothing-to-import notice and neither a failures nor a git-errors section. -/
theorem c7_compose_witness :
    mainSecondBlock ⟨[], [⟨"#4bb543", [packageHeader, nothingNotice]⟩]⟩ = some nothingNotice
    ∧ hasFailuresSection ⟨[], [⟨"#4bb543", [packageHeader, nothingNotice]⟩]⟩ ≠ true
    ∧ hasGitErrorsSection ⟨[], [⟨"#4bb543", [packageHeader, nothingNotice]⟩]⟩ ≠ true := by
  have h := c7_compose_sections [] [] []
    ⟨[], [⟨"#4bb543", [packageHeader, nothingNotice]⟩]⟩ (by rfl)
  exact ⟨h.1.mpr rfl, fun ht => (h.2.2.1.mp ht) rfl, fun ht => (h.2.2.2.1.mp ht) rfl⟩

/-- C9: `rename_branch_version` renames to `branch-version`; when that name
is already in the live branch listing it logs the collision and uses
`branch-version-2` instead, with no further disambiguation level (the
hypothesis constrains only the first name, so a second collision changes
nothing); in both cases the `git branch -m` command is issued with exactly
the returned name, and a `GitError` of the rename propagates. -/
theorem c9_rename_with_version (bl : List String) (g : Except String Unit)
    (branch version : String) :
    (branch ++ "-" ++ version ∉ bl →
      rename_branch_version bl g branch version
        = ([Effect.gitBranchMove branch (branch ++ "-" ++ version)],
           match g with
           | .ok _ => Except.ok (branch ++ "-" ++ version)
           | .error stderr => Except.error (.gitError ("Git error: " ++ stderr))))
    ∧ (branch ++ "-" ++ version ∈ bl →
      rename_branch_version bl g branch version
        = ([Effect.log ("Branch " ++ (branch ++ "-" ++ version) ++ " already exists"),
            Effect.gitBranchMove branch (branch ++ "-" ++ version ++ "-2")],
           match g with
           | .ok _ => Except.ok (branch ++ "-" ++ version ++ "-2")
           | .error stderr => Except.error (.gitError ("Git error: " ++ stderr)))) := by
  constructor <;> intro h <;> unfold rename_branch_version <;> cases g <;> simp [h]

/-- C9 witness: with both `foo-1.0` and `foo-1.0-2` already existing, the
rename still uses `foo-1.0-2` — exactly one suffix level. -/
theorem c9_rename_witness :
    rename_branch_version ["foo-1.0", "foo-1.0-2"] (Except.ok ()) "foo" "1.0"
      = ([Effect.log ("Branch " ++ ("foo" ++ "-" ++ "1.0") ++ " already exists"),
          Effect.gitBranchMove "foo" ("foo" ++ "-" ++ "1.0" ++ "-2")],
         Except.ok ("foo" ++ "-" ++ "1.0" ++ "-2")) :=
  (c9_rename_with_version ["foo-1.0", "foo-1.0-2"] (Except.ok ()) "foo" "1.0").2 (by decide)

/-- Traversing the imported list for the Slack message raises a `KeyError`
as soon as some member lacks its `branchname` or `version` key. -/
theorem imported_lines_missing_key (imported : List ImportedItem) (item : ImportedItem)
    (hmem : item ∈ imported) (hkey : item.branchname = none ∨ item.version = none) :
    ∃ e, imported_lines imported = Except.error e := by
  induction imported with
  | nil => cases hmem
  | cons x rest ih =>
    rcases List.mem_cons.mp hmem with rfl | hmem2
    · cases hv : item.version with
      | none => exact ⟨"version", by simp [imported_lines, hv]⟩
      | some v =>
        have hb : item.branchname = none := by
          rcases hkey with h | h
          · exact h
          · rw [h] at hv; cases hv
        exact ⟨"branchname", by simp [imported_lines, hv, hb]⟩
    · cases hv : x.version with
      | none => exact ⟨"version", by simp [imported_lines, hv]⟩
      | some v =>
        cases hb : x.branchname with
        | none => exact ⟨"branchname", by simp [imported_lines, hv, hb]⟩
        | some nm =>
          obtain ⟨e, he⟩ := ih hmem2
          exact ⟨e, by simp [imported_lines, hv, hb, he]⟩

/-- C10: each rendered imported line shows the item's `branchname` value as
the displayed name (part 1: the line is built from `branchname` and
`version`; part 2: it is invariant under any change of the `name` field),
and composing a notification whose imported list contains any item lacking
the `branchname` or `version` key fails with a key-lookup error instead of
producing a payload (part 3). -/
theorem c10_branchname_rendering :
    (∀ (item : ImportedItem) (rest : List ImportedItem) (b v : String),
        item.branchname = some b → item.version = some v →
        imported_lines (item :: rest)
          = (imported_lines rest).map
              (fun ls => Block.sec "mrkdwn" ("• " ++ b ++ " version " ++ v) :: ls))
    ∧ (∀ (item : ImportedItem) (n : Option String) (rest : List ImportedItem),
        imported_lines ({ item with name := n } :: rest) = imported_lines (item :: rest))
    ∧ (∀ (imported : List ImportedItem) (failed : List FailureRecord)
        (git_info : List PushOutcome) (item : ImportedItem),
        item ∈ imported → (item.branchname = none ∨ item.version = none) →
        ∃ e, format_slack_message imported failed git_info = Except.error e) := by
  refine ⟨?_, ?_, ?_⟩
  · intro item rest b v hb hv
    simp only [imported_lines, hv, hb]
    cases imported_lines rest <;> simp [Except.map]
  · intro item n rest
    rfl
  · intro imported failed git_info item hmem hkey
    obtain ⟨e, he⟩ := imported_lines_missing_key imported item hmem hkey
    refine ⟨e, ?_⟩
    cases imported with
    | nil => cases hmem
    | cons i is => simp [format_slack_message, imported_message, he]

/-- C10 witness: a concrete item renders via its branchname, and a concrete
item missing both keys makes composition fail. -/
theorem c10_branchname_witness :
    imported_lines [(⟨some "Foo", some "1.0", some "foo"⟩ : ImportedItem)]
      = (imported_lines []).map
          (fun ls => Block.sec "mrkdwn" ("• " ++ "foo" ++ " version " ++ "1.0") :: ls)
    ∧ ∃ e, format_slack_message [⟨some "Foo", none, none⟩] [] [] = Except.error e :=
  ⟨c10_branchname_rendering.1 ⟨some "Foo", some "1.0", some "foo"⟩ [] "foo" "1.0" rfl rfl,
   c10_branchname_rendering.2.2 [⟨some "Foo", none, none⟩] [] []
     ⟨some "Foo", none, none⟩ (List.mem_singleton.mpr rfl) (Or.inl rfl)⟩
